import Mathlib

/-!
# Verification of the `ModelService` model lifecycle (simple-ml-server)

Shallow embedding of `src/ml_server/app/model_service.py`.

Modelling conventions:
* A trained LightGBM booster is identified by an opaque `Nat` id; fitting
  (`lgb.train`) is an external library call, supplied by the environment
  (`Env.fit`, `Env.demoFit`); `none` models the library raising.
* The filesystem is an association list from paths to entries.  A regular
  file carries a `complete : Bool` flag: file writes are not atomic, so a
  write is modelled as a `beginWrite` (content present, incomplete) followed
  by an `endWrite`.  `os.symlink` stores the target string; resolution of a
  relative target happens against the directory of the link, as in POSIX.
* `datetime.now().strftime("%Y%m%d_%H%M%S")` is an environment input
  (`Env.ts`), one string per call.
* Numeric CSV cells are rationals; `np.float32` NaN is `Option.none`.
* Errors: `FileNotFoundError` is `Err.notFound`, `ValueError` is
  `Err.validation` (the spec's ValidationError), exceptions raised by the
  boosting library are `Err.libError`, and a tuple-index failure is
  `Err.indexError`.  Message strings are dropped.
-/

set_option autoImplicit false

namespace MLServer

/-! ## Path helpers (`os.path.dirname`, `os.path.basename`, `os.path.join`) -/

/-- `os.path.dirname`: everything before the last `/` (empty when there is
no separator). -/
def dirName (p : String) : String :=
  ⟨((p.data.reverse.dropWhile (· ≠ '/')).reverse).dropLast⟩

/-- `os.path.basename`: everything after the last `/`. -/
def baseName (p : String) : String :=
  ⟨(p.data.reverse.takeWhile (· ≠ '/')).reverse⟩

def joinPath (d f : String) : String :=
  if d = "" then f else d ++ "/" ++ f

/-! ## CSV cells and the numpy parsing model

`np.genfromtxt(path, delimiter=",", dtype=np.float32, skip_header=1)`:
skips the first line, turns an unparsable cell into NaN, and raises
`ValueError` when the remaining lines do not all have the width of the
first remaining line.  `np.loadtxt(path, delimiter=",", dtype=np.float32)`
raises `ValueError` on any unparsable cell or width mismatch.  Both squeeze
the result: no rows gives an empty 1-D array, exactly one row gives a 1-D
array of that row, a single column gives a 1-D array of the column, and a
single cell gives a 0-D array. -/

inductive Cell where
  | num (q : ℚ)
  | text
  deriving DecidableEq, Repr

abbrev Csv := List (List Cell)

/-- A float32 cell value; `none` is NaN. -/
abbrev RVal := Option ℚ

def cellVal : Cell → RVal
  | .num q => some q
  | .text => none

/-- `loadtxt`-style strict cell parse: non-numeric text raises. -/
def cellValStrict : Cell → Option ℚ
  | .num q => some q
  | .text => none

def rowNumeric (r : List Cell) : Bool :=
  r.all fun c => match c with | .num _ => true | .text => false

/-- Rows all have the width of the first row. -/
def consistentRows (rows : Csv) : Bool :=
  match rows with
  | [] => true
  | r0 :: rest => rest.all fun r => r.length = r0.length

/-- `np.genfromtxt` applied to the given (already `skip_header`-stripped)
rows: NaN for text cells, `ValueError` (modelled as `none`) exactly when the
rows are ragged. -/
def genfromtxtRows (rows : Csv) : Option (List (List RVal)) :=
  if consistentRows rows then some (rows.map (·.map cellVal)) else none

/-- `np.loadtxt`: `ValueError` on a text cell or ragged rows. -/
def loadtxtRows (rows : Csv) : Option (List (List RVal)) :=
  if consistentRows rows ∧ rows.all rowNumeric then
    some (rows.map (·.map cellVal))
  else none

/-- A numpy array as seen through `ndim` / `shape`. -/
inductive NpArr where
  | mat (rows : List (List RVal))
  | vec (v : List RVal)
  | scalar (v : RVal)
  deriving DecidableEq, Repr

/-- Dimension squeezing performed by `genfromtxt` / `loadtxt`. -/
def squeeze (rows : List (List RVal)) : NpArr :=
  match rows with
  | [] => .vec []
  | [r] =>
    match r with
    | [x] => .scalar x
    | _ => .vec r
  | _ =>
    if rows.all (·.length = 1) then .vec (rows.filterMap List.head?)
    else .mat rows

/-- The parse performed by `train_from_file`: `genfromtxt` with
`skip_header=1`, retried as `loadtxt` without a skip exactly when the first
attempt raised `ValueError`. -/
def parseArr (csv : Csv) : Option NpArr :=
  match genfromtxtRows csv.tail with
  | some rs => some (squeeze rs)
  | none => (loadtxtRows csv).map squeeze

/-- `float32 → int` cast: truncation toward zero (`Int.div` rounds toward
zero); the cast of NaN is platform noise in numpy, fixed here as the minimal
int64. -/
def f32ToInt : RVal → Int
  | some q => q.num.tdiv (q.den : Int)
  | none => -(2 ^ 63)

inductive Err where
  | notFound
  | validation
  | libError
  | indexError
  deriving DecidableEq, Repr

/-- The `(X, y)` pair handed to `lgb.train` by `train_from_file`, or the
error raised before fitting: parse with retry, reject a 1-D result, reject
fewer than 2 columns, then split features/label. -/
def trainingMatrix (csv : Csv) : Except Err (List (List RVal) × List Int) :=
  match parseArr csv with
  | none => .error .validation
  | some (.vec _) => .error .validation
  | some (.scalar _) => .error .indexError
  | some (.mat rows) =>
    if ((rows.head?.getD []).length < 2) then .error .validation
    else .ok (rows.map (·.dropLast), rows.map fun r => f32ToInt ((r.getLast?).getD none))

/-! ## Filesystem model -/

/-- Contents of a regular file: a serialized booster dump or CSV text. -/
inductive Content where
  | model (id : Nat)
  | csv (rows : Csv)
  deriving DecidableEq, Repr

/-- A directory entry.  `complete = false` marks a file whose write has
begun but not finished. -/
inductive Entry where
  | file (c : Content) (complete : Bool)
  | symlink (target : String)
  deriving DecidableEq, Repr

/-- The filesystem: an association list from absolute-ish paths to entries
(directories are left implicit; `os.makedirs` is a no-op here). -/
abbrev FS := List (String × Entry)

def lookupFS (fs : FS) (p : String) : Option Entry :=
  match fs.find? (fun kv => kv.1 = p) with
  | some kv => some kv.2
  | none => none

def setFS (fs : FS) (p : String) (e : Entry) : FS :=
  (p, e) :: fs.filter (fun kv => ¬ kv.1 = p)

def eraseFS (fs : FS) (p : String) : FS :=
  fs.filter (fun kv => ¬ kv.1 = p)

/-- Resolve a path to the contents of a regular file, following a symlink
one hop; a relative symlink target is interpreted against the directory of
the link, as the kernel does. -/
def resolveEntry (fs : FS) (p : String) : Option (Content × Bool) :=
  match lookupFS fs p with
  | some (.file c b) => some (c, b)
  | some (.symlink t) =>
    match lookupFS fs (joinPath (dirName p) t) with
    | some (.file c b) => some (c, b)
    | _ => none
  | none => none

/-- `os.path.exists`: follows symlinks, true for a file mid-write too. -/
def pathExists (fs : FS) (p : String) : Bool :=
  (resolveEntry fs p).isSome

/-- `os.path.islink`: true for any symlink, dangling included. -/
def isLink (fs : FS) (p : String) : Bool :=
  match lookupFS fs p with
  | some (.symlink _) => true
  | _ => false

/-- Primitive filesystem effects performed by `_save_booster`, in program
order.  `booster.save_model` is the pair `beginWrite; endWrite`: the file
exists with its new content before the write has completed. -/
inductive FsOp where
  | beginWrite (p : String) (m : Nat)
  | endWrite (p : String)
  | remove (p : String)
  | mklink (p : String) (target : String)
  deriving DecidableEq, Repr

/-- Writing through a path that is currently a symlink writes the target
file (POSIX `open` semantics); `os.remove` removes the link itself. -/
def writeTarget (fs : FS) (p : String) : String :=
  match lookupFS fs p with
  | some (.symlink t) => joinPath (dirName p) t
  | _ => p

def applyOp (fs : FS) : FsOp → FS
  | .beginWrite p m => setFS fs (writeTarget fs p) (.file (.model m) false)
  | .endWrite p =>
    let q := writeTarget fs p
    match lookupFS fs q with
    | some (.file c _) => setFS fs q (.file c true)
    | _ => fs
  | .remove p => eraseFS fs p
  | .mklink p t => setFS fs p (.symlink t)

def applyOps (fs : FS) (ops : List FsOp) : FS :=
  ops.foldl applyOp fs

/-! ## The service -/

/-- External inputs of one lifecycle call: the wall-clock timestamp string,
whether the OS supports `os.symlink` / lets `os.remove` succeed, and the
boosting library (`fit` for `train_from_file`'s data, `demoFit` for the
fixed-seed synthetic dataset of `load_or_train`); `none` means the library
raises. -/
structure Env where
  ts : String
  symlinkOk : Bool
  removeOk : Bool
  fit : List (List RVal) → List Int → Option Nat
  demoFit : Option Nat

/-- `ModelService` state: configured canonical path, the in-memory booster
handle, and the filesystem it touches. -/
structure SState where
  modelPath : String
  booster : Option Nat
  fs : FS
  deriving DecidableEq, Repr

/-- The timestamped path `os.path.join(dirname(model_path), f"model_{ts}.txt")`. -/
def tsFile (ts mp : String) : String :=
  joinPath (dirName mp) ("model_" ++ ts ++ ".txt")

/-- The effects of `_save_booster`, in order: write the timestamped file,
then update the latest pointer — remove an existing entry (ignoring a
failed remove), then `os.symlink(basename, model_path)`, which succeeds only
when the OS supports it and no entry is left at the path; otherwise fall
back to `booster.save_model(model_path)`. -/
def saveOps (env : Env) (fs : FS) (mp : String) (m : Nat) : List FsOp :=
  let tp := tsFile env.ts mp
  let w : List FsOp := [.beginWrite tp m, .endWrite tp]
  let fs1 := applyOps fs w
  let removeOps : List FsOp :=
    if isLink fs1 mp ∨ pathExists fs1 mp then
      if env.removeOk then [.remove mp] else []
    else []
  let fs2 := applyOps fs1 removeOps
  if env.symlinkOk ∧ (lookupFS fs2 mp).isNone then
    w ++ removeOps ++ [.mklink mp (baseName tp)]
  else
    w ++ removeOps ++ [.beginWrite mp m, .endWrite mp]

/-- `ModelService._save_booster`: performs `saveOps`, replaces the in-memory
handle, and returns the timestamped path. -/
def _save_booster (env : Env) (s : SState) (m : Nat) : SState × String :=
  ({ s with
      fs := applyOps s.fs (saveOps env s.fs s.modelPath m)
      booster := some m },
   tsFile env.ts s.modelPath)

/-- `lgb.Booster(model_file=p)`: succeeds on a completely written model
dump, raises otherwise. -/
def readModel (fs : FS) (p : String) : Option Nat :=
  match resolveEntry fs p with
  | some (.model id, true) => some id
  | _ => none

/-- `ModelService.load_or_train` (the body runs under `self._lock`; the
lock itself is modelled in the concurrent semantics below).  Returns the
post-state together with the outcome; an exception leaves the state as the
code left it. -/
def load_or_train (env : Env) (s : SState) : SState × Except Err Unit :=
  if s.booster.isSome then (s, .ok ())
  else if pathExists s.fs s.modelPath then
    match readModel s.fs s.modelPath with
    | some id => ({ s with booster := some id }, .ok ())
    | none => (s, .error .libError)
  else
    match env.demoFit with
    | none => (s, .error .libError)
    | some m => ((_save_booster env s m).1, .ok ())

/-- Read the CSV rows at a path.  A path holding a booster dump is parsed
by numpy as a single-column text file: every cell is NaN, so the ndim-1
check of `train_from_file` rejects it with `ValueError`; we shortcut that
to `none` here and map it to `Err.validation` at the use site. -/
def readCsv (fs : FS) (p : String) : Option Csv :=
  match resolveEntry fs p with
  | some (.csv rows, _) => some rows
  | _ => none

/-- `ModelService.train_from_file`: `FileNotFoundError` when the source is
absent, then parse / shape checks (`trainingMatrix`), then `lgb.train`,
then `_save_booster`.  Returns the post-state and the timestamped path or
the exception raised. -/
def train_from_file (env : Env) (s : SState) (dataPath : String) :
    SState × Except Err String :=
  if ¬ pathExists s.fs dataPath then (s, .error .notFound)
  else
    match readCsv s.fs dataPath with
    | none => (s, .error .validation)
    | some csv =>
      match trainingMatrix csv with
      | .error e => (s, .error e)
      | .ok (X, y) =>
        match env.fit X y with
        | none => (s, .error .libError)
        | some m =>
          let r := _save_booster env s m
          (r.1, .ok r.2)

/-! ## `predict` input coercion -/

/-- The two shapes `np.asarray(list(features))` takes for this endpoint:
a flat sequence of numbers (ndim 1) or a list of rows (ndim 2). -/
inductive Features where
  | single (r : List ℚ)
  | batch (rows : List (List ℚ))
  deriving DecidableEq, Repr

/-- The coercion in `predict`: `np.asarray` followed by
`if X.ndim == 1: X = X.reshape(1, -1)`.  A flat sequence becomes one row;
note `np.asarray([])` is 1-D, so an empty batch also becomes one (empty)
row. -/
def toMatrix : Features → List (List ℚ)
  | .single r => [r]
  | .batch [] => [[]]
  | .batch rows => rows

/-- `ModelService.predict`: ensure a handle (running `load_or_train` if the
handle is absent), coerce the input, and delegate to the booster's raw
predict, supplied as `pf` (one probability per row is the library's
contract, taken as a hypothesis where needed). -/
def predictSrv (env : Env) (pf : Nat → List (List ℚ) → List ℚ)
    (s : SState) (input : Features) : SState × Except Err (List ℚ) :=
  let st := if s.booster.isSome then (s, Except.ok ()) else load_or_train env s
  match st.2 with
  | .error e => (st.1, .error e)
  | .ok _ =>
    match st.1.booster with
    | some b => (st.1, .ok (pf b (toMatrix input)))
    | none => (st.1, .error .libError)

/-! ## Concurrent semantics of `load_or_train`

`load_or_train` runs its whole body under `self._lock`.  Threads are
modelled by an interleaving semantics: each thread acquires the free lock,
then performs the body's check and (possibly) the training action as
separate steps — all guarded by lock ownership, as `with self._lock`
guarantees — and releases the lock on exit (also on the unwind of a raised
exception). -/

/-- A thread's program counter through `load_or_train`. -/
inductive TPC where
  | start
  | inCrit
  | mustTrain
  | exiting
  | done
  deriving DecidableEq, Repr

/-- Global state of the service shared by `n` threads: the service object,
the owner of `self._lock`, each thread's position, and the number of
synthetic training runs performed. -/
structure CState where
  svc : SState
  lock : Option Nat
  pcs : List TPC
  trains : Nat
  deriving DecidableEq, Repr

/-- One interleaving step of some thread `i` running `load_or_train`. -/
inductive CStep (env : Env) : CState → CState → Prop where
  | acquire (cs : CState) (i : Nat)
      (hpc : cs.pcs.get? i = some TPC.start) (hl : cs.lock = none) :
      CStep env cs { cs with lock := some i, pcs := cs.pcs.set i TPC.inCrit }
  | checkLoaded (cs : CState) (i : Nat)
      (hpc : cs.pcs.get? i = some TPC.inCrit) (hl : cs.lock = some i)
      (hb : cs.svc.booster.isSome = true) :
      CStep env cs { cs with pcs := cs.pcs.set i TPC.exiting }
  | checkLoadOk (cs : CState) (i : Nat) (id : Nat)
      (hpc : cs.pcs.get? i = some TPC.inCrit) (hl : cs.lock = some i)
      (hb : cs.svc.booster = none)
      (hex : pathExists cs.svc.fs cs.svc.modelPath = true)
      (hid : readModel cs.svc.fs cs.svc.modelPath = some id) :
      CStep env cs { cs with
        svc := { cs.svc with booster := some id }
        pcs := cs.pcs.set i TPC.exiting }
  | checkLoadFail (cs : CState) (i : Nat)
      (hpc : cs.pcs.get? i = some TPC.inCrit) (hl : cs.lock = some i)
      (hb : cs.svc.booster = none)
      (hex : pathExists cs.svc.fs cs.svc.modelPath = true)
      (hid : readModel cs.svc.fs cs.svc.modelPath = none) :
      CStep env cs { cs with pcs := cs.pcs.set i TPC.exiting }
  | checkTrain (cs : CState) (i : Nat)
      (hpc : cs.pcs.get? i = some TPC.inCrit) (hl : cs.lock = some i)
      (hb : cs.svc.booster = none)
      (hex : pathExists cs.svc.fs cs.svc.modelPath = false) :
      CStep env cs { cs with pcs := cs.pcs.set i TPC.mustTrain }
  | trainStep (cs : CState) (i : Nat) (m : Nat)
      (hpc : cs.pcs.get? i = some TPC.mustTrain) (hl : cs.lock = some i)
      (hfit : env.demoFit = some m) :
      CStep env cs { cs with
        svc := (_save_booster env cs.svc m).1
        trains := cs.trains + 1
        pcs := cs.pcs.set i TPC.exiting }
  | trainFail (cs : CState) (i : Nat)
      (hpc : cs.pcs.get? i = some TPC.mustTrain) (hl : cs.lock = some i)
      (hfit : env.demoFit = none) :
      CStep env cs { cs with pcs := cs.pcs.set i TPC.exiting }
  | release (cs : CState) (i : Nat)
      (hpc : cs.pcs.get? i = some TPC.exiting) (hl : cs.lock = some i) :
      CStep env cs { cs with lock := none, pcs := cs.pcs.set i TPC.done }

/-- Initial state: `n` callers about to invoke `load_or_train` on a fresh
service. -/
def initC (mp : String) (fs : FS) (n : Nat) : CState :=
  { svc := { modelPath := mp, booster := none, fs := fs }
    lock := none
    pcs := List.replicate n TPC.start
    trains := 0 }

/-- Inductive invariant of the interleaving semantics, for a fresh service
`svc0` (no handle, no file) and demo model `m`. -/
def InvC (env : Env) (m : Nat) (svc0 : SState) (n : Nat) (cs : CState) : Prop :=
  cs.pcs.length = n ∧
  (∀ i st, cs.pcs.get? i = some st →
    (st = TPC.inCrit ∨ st = TPC.mustTrain ∨ st = TPC.exiting) → cs.lock = some i) ∧
  cs.trains ≤ 1 ∧
  (cs.trains = 0 → cs.svc = svc0) ∧
  (cs.trains = 1 → cs.svc = (_save_booster env svc0 m).1) ∧
  (cs.trains = 0 → ∀ i st, cs.pcs.get? i = some st → st ≠ TPC.exiting ∧ st ≠ TPC.done) ∧
  (∀ i, cs.pcs.get? i = some TPC.mustTrain → cs.trains = 0)

/-! ## Concrete fixtures (used to instantiate theorems at concrete inputs) -/

def wMp : String := "models/model.txt"

def wEnv : Env :=
  { ts := "20251012_020000", symlinkOk := true, removeOk := true,
    fit := fun _ _ => some 7, demoFit := some 3 }

def wEnvNoLink : Env := { wEnv with symlinkOk := false }

def wEnv2 : Env := { wEnv with ts := "20251013_020000" }

/-- A CSV with a header line and three data rows of two columns. -/
def wCsv : Csv :=
  [[.text, .text], [.num 1, .num 0], [.num 2, .num 1], [.num 3, .num 1]]

def wState0 : SState := { modelPath := wMp, booster := none, fs := [] }

def wStateCsv : SState :=
  { modelPath := wMp, booster := none,
    fs := [("data/train.csv", .file (.csv wCsv) true)] }

def wStateModel : SState :=
  { modelPath := wMp, booster := none, fs := [(wMp, .file (.model 1) true)] }

def wStateLoaded : SState :=
  { modelPath := wMp, booster := some 7, fs := [] }

/-- Header line and a single three-column data row: the parsed data has three
columns, yet `train_from_file` rejects it (the parse is one-dimensional). -/
def cC2Csv : Csv := [[.text, .text, .text], [.num 1, .num 2, .num 3]]

def cC2State : SState :=
  { modelPath := wMp, booster := none,
    fs := [("data/train.csv", .file (.csv cC2Csv) true)] }

/-- A headerless numeric CSV: three data rows of two columns. -/
def cC3Csv : Csv := [[.num 1, .num 2], [.num 3, .num 4], [.num 5, .num 6]]

/-- An old, completely written model at the canonical path. -/
def cC1Fs : FS := [(wMp, Entry.file (.model 1) true)]

/-! ## Observables for the persistence-protocol invariant -/

/-- What a reader following the latest pointer observes: `true` when the
pointer is absent or resolves to a completely written file, `false` when it
resolves to a file whose write has begun but not completed. -/
def pointerOk (fs : FS) (mp : String) : Bool :=
  match resolveEntry fs mp with
  | some (_, b) => b
  | none => true

/-- The path an effect manipulates. -/
def opPath : FsOp → String
  | .beginWrite p _ => p
  | .endWrite p => p
  | .remove p => p
  | .mklink p _ => p

/-- Number of directory entries recorded for a path. -/
def countKey (fs : FS) (p : String) : Nat :=
  (fs.filter (fun kv => kv.1 = p)).length

/-- Well-formed filesystem: one entry per path. -/
def wfFS (fs : FS) : Prop :=
  (fs.map Prod.fst).Nodup

/-! ## Association-list filesystem lemmas -/

theorem lookupFS_setFS_self (fs : FS) (p : String) (e : Entry) :
    lookupFS (setFS fs p e) p = some e := by
  simp [lookupFS, setFS, List.find?_cons]

theorem lookupFS_setFS_ne (fs : FS) (p q : String) (e : Entry) (h : q ≠ p) :
    lookupFS (setFS fs p e) q = lookupFS fs q := by
  simp only [lookupFS, setFS]
  rw [List.find?_cons_of_neg _ (by simpa using fun h' => (h h'.symm).elim)]
  induction fs with
  | nil => simp
  | cons kv tl ih =>
    by_cases hk : kv.1 = p
    · rw [List.filter_cons_of_neg (by simpa using hk)]
      rw [List.find?_cons_of_neg _ (by simp [hk]; exact fun h' => (h h'.symm).elim)]
      exact ih
    · rw [List.filter_cons_of_pos (by simpa using hk)]
      by_cases hq : kv.1 = q
      · rw [List.find?_cons_of_pos _ (by simpa using hq),
          List.find?_cons_of_pos _ (by simpa using hq)]
      · rw [List.find?_cons_of_neg _ (by simpa using hq),
          List.find?_cons_of_neg _ (by simpa using hq)]
        exact ih

theorem lookupFS_eraseFS_self (fs : FS) (p : String) :
    lookupFS (eraseFS fs p) p = none := by
  simp only [lookupFS, eraseFS]
  induction fs with
  | nil => simp
  | cons kv tl ih =>
    by_cases hk : kv.1 = p
    · rw [List.filter_cons_of_neg (by simpa using hk)]; exact ih
    · rw [List.filter_cons_of_pos (by simpa using hk),
        List.find?_cons_of_neg _ (by simpa using hk)]
      exact ih

theorem lookupFS_eraseFS_ne (fs : FS) (p q : String) (h : q ≠ p) :
    lookupFS (eraseFS fs p) q = lookupFS fs q := by
  simp only [lookupFS, eraseFS]
  induction fs with
  | nil => simp
  | cons kv tl ih =>
    by_cases hk : kv.1 = p
    · rw [List.filter_cons_of_neg (by simpa using hk)]
      rw [List.find?_cons_of_neg _ (by simp [hk]; exact fun h' => (h h'.symm).elim)]
      exact ih
    · rw [List.filter_cons_of_pos (by simpa using hk)]
      by_cases hq : kv.1 = q
      · rw [List.find?_cons_of_pos _ (by simpa using hq),
          List.find?_cons_of_pos _ (by simpa using hq)]
      · rw [List.find?_cons_of_neg _ (by simpa using hq),
          List.find?_cons_of_neg _ (by simpa using hq)]
        exact ih

theorem setFS_setFS (fs : FS) (p : String) (e e' : Entry) :
    setFS (setFS fs p e) p e' = setFS fs p e' := by
  simp only [setFS, List.filter_cons]
  simp [List.filter_filter]

theorem applyOps_append (fs : FS) (l1 l2 : List FsOp) :
    applyOps fs (l1 ++ l2) = applyOps (applyOps fs l1) l2 :=
  List.foldl_append _ _ _ _

theorem resolveEntry_of_file {fs : FS} {p : String} {c : Content} {b : Bool}
    (h : lookupFS fs p = some (.file c b)) : resolveEntry fs p = some (c, b) := by
  simp [resolveEntry, h]

theorem resolveEntry_of_none {fs : FS} {p : String}
    (h : lookupFS fs p = none) : resolveEntry fs p = none := by
  simp [resolveEntry, h]

/-- `booster.save_model(p)` on a path that is absent or a regular file:
begin then complete a write of the new content, in place. -/
theorem applyOps_write {fs : FS} {p : String} (m : Nat)
    (h : lookupFS fs p = none ∨ ∃ c b, lookupFS fs p = some (.file c b)) :
    applyOps fs [.beginWrite p m, .endWrite p] =
      setFS fs p (.file (.model m) true) := by
  have hwt : writeTarget fs p = p := by
    rcases h with h | ⟨c, b, h⟩ <;> simp [writeTarget, h]
  have hwt2 : writeTarget (setFS fs p (.file (.model m) false)) p = p := by
    simp [writeTarget, lookupFS_setFS_self]
  simp only [applyOps, List.foldl_cons, List.foldl_nil, applyOp, hwt, hwt2,
    lookupFS_setFS_self, setFS_setFS]

theorem isLink_setFS_ne (fs : FS) (p q : String) (e : Entry) (h : q ≠ p) :
    isLink (setFS fs p e) q = isLink fs q := by
  simp [isLink, lookupFS_setFS_ne fs p q e h]

/-! ### `_save_booster` scenario lemmas

`tp` abbreviates the timestamped path `tsFile env.ts s.modelPath` and `mp`
the canonical path; `htp` says the timestamped path is fresh, `hne` that it
differs from the canonical path. -/

/-- Explicit shape of the `_save_booster` effect list when the timestamped
path is fresh: the completed write of the timestamped file, then the pointer
removal (when an entry is present and `os.remove` succeeds), then either the
symlink creation (supported platform and a free slot) or the direct
fallback write over the canonical path. -/
theorem saveOps_eq (env : Env) (fs : FS) (mp : String) (m : Nat)
    (htp : lookupFS fs (tsFile env.ts mp) = none)
    (hne : mp ≠ tsFile env.ts mp) :
    saveOps env fs mp m =
      [.beginWrite (tsFile env.ts mp) m, .endWrite (tsFile env.ts mp)] ++
      (if lookupFS fs mp = none then []
       else if env.removeOk then [.remove mp] else []) ++
      (if env.symlinkOk ∧ (lookupFS fs mp = none ∨ env.removeOk) then
        [.mklink mp (baseName (tsFile env.ts mp))]
       else [.beginWrite mp m, .endWrite mp]) := by
  have hfs1 : applyOps fs [.beginWrite (tsFile env.ts mp) m, .endWrite (tsFile env.ts mp)] =
      setFS fs (tsFile env.ts mp) (.file (.model m) true) := applyOps_write m (Or.inl htp)
  have hl1 : lookupFS (setFS fs (tsFile env.ts mp) (.file (.model m) true)) mp =
      lookupFS fs mp := lookupFS_setFS_ne _ _ _ _ hne
  simp only [saveOps, hfs1]
  rcases hl : lookupFS fs mp with _ | e
  · have hcond : ¬ (isLink (setFS fs (tsFile env.ts mp) (.file (.model m) true)) mp = true
        ∨ pathExists (setFS fs (tsFile env.ts mp) (.file (.model m) true)) mp = true) := by
      simp [isLink, pathExists, resolveEntry, hl1, hl]
    by_cases hsl : env.symlinkOk <;>
      simp [hcond, applyOps, hl1, hl, hsl]
  · have hcond : (isLink (setFS fs (tsFile env.ts mp) (.file (.model m) true)) mp = true
        ∨ pathExists (setFS fs (tsFile env.ts mp) (.file (.model m) true)) mp = true) := by
      rcases e with ⟨c, b⟩ | t
      · right; simp [pathExists, resolveEntry, hl1, hl]
      · left; simp [isLink, hl1, hl]
    by_cases hrm : env.removeOk
    · by_cases hsl : env.symlinkOk <;>
        simp [hcond, hrm, hsl, applyOps, applyOp, lookupFS_eraseFS_self, hl1, hl]
    · by_cases hsl : env.symlinkOk <;>
        simp [hcond, hrm, hsl, applyOps, hl1, hl]

theorem setFS_eraseFS (fs : FS) (p : String) (e : Entry) :
    setFS (eraseFS fs p) p e = setFS fs p e := by
  simp [setFS, eraseFS, List.filter_filter]

theorem save_booster_ret (env : Env) (s : SState) (m : Nat) :
    (_save_booster env s m).2 = tsFile env.ts s.modelPath := rfl

theorem save_booster_handle (env : Env) (s : SState) (m : Nat) :
    (_save_booster env s m).1.booster = some m := rfl

theorem save_booster_modelPath (env : Env) (s : SState) (m : Nat) :
    (_save_booster env s m).1.modelPath = s.modelPath := rfl

/-- Final filesystem of `_save_booster` when the timestamped path is fresh
and the pointer update is not the degenerate write-through-a-stale-symlink
case: the timestamped file is completely written, and the canonical path
holds either the new symlink or (fallback) a directly written copy. -/
theorem save_fs_clean (env : Env) (s : SState) (m : Nat)
    (htp : lookupFS s.fs (tsFile env.ts s.modelPath) = none)
    (hne : s.modelPath ≠ tsFile env.ts s.modelPath)
    (hok : (lookupFS s.fs s.modelPath = none ∨ env.removeOk = true) ∨
      (env.symlinkOk = false ∧ ∃ c b, lookupFS s.fs s.modelPath = some (.file c b))) :
    (_save_booster env s m).1.fs =
      if env.symlinkOk = true then
        setFS (setFS s.fs (tsFile env.ts s.modelPath) (.file (.model m) true))
          s.modelPath (.symlink (baseName (tsFile env.ts s.modelPath)))
      else
        setFS (setFS s.fs (tsFile env.ts s.modelPath) (.file (.model m) true))
          s.modelPath (.file (.model m) true) := by
  have hbase : (_save_booster env s m).1.fs =
      applyOps s.fs (saveOps env s.fs s.modelPath m) := rfl
  set tp := tsFile env.ts s.modelPath with htpdef
  set mp := s.modelPath with hmpdef
  set fs1 := setFS s.fs tp (.file (.model m) true) with hfs1def
  have hl1 : lookupFS fs1 mp = lookupFS s.fs mp := lookupFS_setFS_ne _ _ _ _ hne
  rw [hbase, saveOps_eq env s.fs mp m htp hne, applyOps_append, applyOps_append,
    applyOps_write m (Or.inl htp), ← hfs1def, ← htpdef]
  have hfb : ∀ fs2 : FS, lookupFS fs2 mp = none ∨ (∃ c b, lookupFS fs2 mp = some (.file c b)) →
      applyOps fs2 [FsOp.beginWrite mp m, FsOp.endWrite mp] =
        setFS fs2 mp (.file (.model m) true) := fun _ h => applyOps_write m h
  rcases hok with hok | ⟨hsl, c, b, hfile⟩
  · rcases hl : lookupFS s.fs mp with _ | e
    · by_cases hsl : env.symlinkOk = true
      · simp only [hsl, eq_self_iff_true, if_true, true_and, true_or, if_pos]
        simp [applyOps, applyOp]
      · simp only [eq_false_intro hsl, eq_self_iff_true, if_true, false_and, if_false]
        exact hfb fs1 (Or.inl (hl1.trans hl))
    · have hrm : env.removeOk = true := by
        rcases hok with h | h
        · rw [hl] at h; cases h
        · exact h
      by_cases hsl : env.symlinkOk = true
      · simp only [hsl, hrm, reduceCtorEq, if_false, eq_self_iff_true, if_true,
          true_and, or_true]
        simp [applyOps, applyOp, setFS_eraseFS]
      · simp only [eq_false_intro hsl, hrm, reduceCtorEq, if_false, eq_self_iff_true,
          if_true, false_and, or_true]
        exact (hfb (eraseFS fs1 mp) (Or.inl (lookupFS_eraseFS_self _ _))).trans
          (by rw [setFS_eraseFS])
  · by_cases hrm : env.removeOk = true
    · simp only [hfile, hsl, hrm, reduceCtorEq, if_false, eq_self_iff_true, if_true,
        Bool.false_eq_true, false_and, or_true]
      exact (hfb (eraseFS fs1 mp) (Or.inl (lookupFS_eraseFS_self _ _))).trans
        (by rw [setFS_eraseFS])
    · simp only [hfile, hsl, eq_false_intro hrm, reduceCtorEq, if_false, eq_self_iff_true,
        if_true, Bool.false_eq_true, false_and, or_false, false_or]
      exact hfb fs1 (Or.inr ⟨c, b, hl1.trans hfile⟩)

theorem pathExists_of_readCsv {fs : FS} {p : String} {csv : Csv}
    (h : readCsv fs p = some csv) : pathExists fs p = true := by
  unfold readCsv at h
  unfold pathExists
  rcases hre : resolveEntry fs p with _ | ⟨c, b⟩
  · rw [hre] at h; cases h
  · simp

/-! ## Claim C5 -/

/-- C5: atomicity of retraining on failure — every invocation of
`train_from_file` that raises (missing file, validation failure, failed
parse, or failed fit) leaves the service state, in-memory handle and
on-disk filesystem included, exactly as it was before the call. -/
theorem C5_failed_retrain_leaves_state_unchanged (env : Env) (s : SState)
    (p : String) (e : Err) (h : (train_from_file env s p).2 = .error e) :
    (train_from_file env s p).1 = s := by
  by_cases hex : pathExists s.fs p = true
  · rcases hcsv : readCsv s.fs p with _ | csv
    · simp [train_from_file, hex, hcsv]
    · rcases htm : trainingMatrix csv with e' | ⟨X, y⟩
      · simp [train_from_file, hex, hcsv, htm]
      · rcases hfit : env.fit X y with _ | m
        · simp [train_from_file, hex, hcsv, htm, hfit]
        · simp [train_from_file, hex, hcsv, htm, hfit] at h
  · simp [train_from_file, hex]

/-- C5 witness: a retrain from a missing source file fails with NotFound and
leaves the freshly constructed state untouched. -/
theorem C5_witness :
    (train_from_file wEnv wState0 "data/train.csv").2 = .error .notFound ∧
    (train_from_file wEnv wState0 "data/train.csv").1 = wState0 :=
  ⟨by rfl,
    C5_failed_retrain_leaves_state_unchanged wEnv wState0 "data/train.csv"
      .notFound (by rfl)⟩

/-! ## Claim C10 -/

/-- C10: when a completely written model dump is reachable at the configured
path and no handle is loaded, `load_or_train` only reads: it deserializes
the file into the handle and returns with the filesystem exactly unchanged —
no new timestamped file, no pointer update. -/
theorem C10_ensure_ready_load_is_read_only (env : Env) (s : SState) (id : Nat)
    (hb : s.booster = none)
    (hm : readModel s.fs s.modelPath = some id) :
    load_or_train env s = ({ s with booster := some id }, .ok ()) ∧
    (load_or_train env s).1.fs = s.fs := by
  have hex : pathExists s.fs s.modelPath = true := by
    unfold readModel at hm
    unfold pathExists
    rcases hre : resolveEntry s.fs s.modelPath with _ | ⟨c, b⟩
    · rw [hre] at hm; cases hm
    · simp
  constructor
  · simp [load_or_train, hb, hex, hm]
  · simp [load_or_train, hb, hex, hm]

/-- C10 witness: loading the existing dump `model 1` at the canonical path
leaves the filesystem unchanged. -/
theorem C10_witness :
    load_or_train wEnv wStateModel =
      ({ wStateModel with booster := some 1 }, .ok ()) ∧
    (load_or_train wEnv wStateModel).1.fs = wStateModel.fs :=
  C10_ensure_ready_load_is_read_only wEnv wStateModel 1 (by decide) (by decide)

/-! ## Claim C8 -/

/-- C8: when symbolic linking is unsupported by the platform, the pointer
update of `_save_booster` silently degrades to writing the model directly to
the canonical path: `train_from_file` still succeeds and returns the
timestamped path, the in-memory handle is replaced, and both the canonical
path and the timestamped path end up holding the completely written new
model.  (Hypotheses: the data parses and fits, the timestamped path is
fresh and distinct from the canonical path, and the canonical path holds no
stale symlink that a failed `os.remove` would leave in place.) -/
theorem C8_symlink_failure_falls_back_silently (env : Env) (s : SState)
    (dp : String) (csv : Csv) (X : List (List RVal)) (y : List Int) (m : Nat)
    (hsl : env.symlinkOk = false)
    (hcsv : readCsv s.fs dp = some csv)
    (htm : trainingMatrix csv = .ok (X, y))
    (hfit : env.fit X y = some m)
    (htp : lookupFS s.fs (tsFile env.ts s.modelPath) = none)
    (hne : s.modelPath ≠ tsFile env.ts s.modelPath)
    (hok : lookupFS s.fs s.modelPath = none ∨ env.removeOk = true ∨
      (∃ c b, lookupFS s.fs s.modelPath = some (.file c b))) :
    (train_from_file env s dp).2 = .ok (tsFile env.ts s.modelPath) ∧
    (train_from_file env s dp).1.booster = some m ∧
    lookupFS (train_from_file env s dp).1.fs s.modelPath =
      some (.file (.model m) true) ∧
    lookupFS (train_from_file env s dp).1.fs (tsFile env.ts s.modelPath) =
      some (.file (.model m) true) := by
  have hex : pathExists s.fs dp = true := pathExists_of_readCsv hcsv
  have hrun : train_from_file env s dp =
      ((_save_booster env s m).1, .ok (_save_booster env s m).2) := by
    simp [train_from_file, hex, hcsv, htm, hfit]
  have hok' : (lookupFS s.fs s.modelPath = none ∨ env.removeOk = true) ∨
      (env.symlinkOk = false ∧ ∃ c b, lookupFS s.fs s.modelPath = some (.file c b)) := by
    rcases hok with h | h | h
    · exact Or.inl (Or.inl h)
    · exact Or.inl (Or.inr h)
    · exact Or.inr ⟨hsl, h⟩
  have hfs := save_fs_clean env s m htp hne hok'
  rw [if_neg (by simp [hsl])] at hfs
  have hne' : tsFile env.ts s.modelPath ≠ s.modelPath := fun h => hne h.symm
  refine ⟨by rw [hrun]; rfl, by rw [hrun]; rfl, ?_, ?_⟩
  · rw [hrun]
    show lookupFS (_save_booster env s m).1.fs s.modelPath = _
    rw [hfs, lookupFS_setFS_self]
  · rw [hrun]
    show lookupFS (_save_booster env s m).1.fs (tsFile env.ts s.modelPath) = _
    rw [hfs, lookupFS_setFS_ne _ _ _ _ hne', lookupFS_setFS_self]

/-- C8 witness: with linking unsupported, training from the fixture CSV
succeeds, returns the timestamped path, and the canonical path holds the
directly written model. -/
theorem C8_witness :
    (train_from_file wEnvNoLink wStateCsv "data/train.csv").2 =
      .ok "models/model_20251012_020000.txt" ∧
    (train_from_file wEnvNoLink wStateCsv "data/train.csv").1.booster = some 7 ∧
    lookupFS (train_from_file wEnvNoLink wStateCsv "data/train.csv").1.fs
      "models/model.txt" = some (.file (.model 7) true) := by
  have h := C8_symlink_failure_falls_back_silently wEnvNoLink wStateCsv
    "data/train.csv" wCsv [[some 1], [some 2], [some 3]] [0, 1, 1] 7
    (by rfl) (by rfl) (by rfl) (by rfl) (by decide) (by decide) (Or.inl (by decide))
  exact ⟨h.1.trans (by rfl), h.2.1, h.2.2.1.trans (by rfl)⟩

/-! ## Claim C7 -/

/-- C7: `load_or_train` is a no-op on a loaded handle; with no handle but an
existing completely written model file it deserializes that file; and on a
never-before-seen model path (no entry at the canonical or timestamped path)
with a succeeding demo fit, it returns successfully with a usable handle,
a completely written timestamped model file on disk, and an existing
canonical path. -/
theorem C7_load_or_train_completeness (env : Env) (s : SState) :
    (∀ b, s.booster = some b → load_or_train env s = (s, .ok ())) ∧
    (∀ id, s.booster = none → readModel s.fs s.modelPath = some id →
      load_or_train env s = ({ s with booster := some id }, .ok ())) ∧
    (∀ m, s.booster = none → env.demoFit = some m →
      lookupFS s.fs s.modelPath = none →
      lookupFS s.fs (tsFile env.ts s.modelPath) = none →
      s.modelPath ≠ tsFile env.ts s.modelPath →
      joinPath (dirName s.modelPath) (baseName (tsFile env.ts s.modelPath)) =
        tsFile env.ts s.modelPath →
      (load_or_train env s).2 = .ok () ∧
      (load_or_train env s).1.booster = some m ∧
      lookupFS (load_or_train env s).1.fs (tsFile env.ts s.modelPath) =
        some (.file (.model m) true) ∧
      pathExists (load_or_train env s).1.fs s.modelPath = true) := by
  refine ⟨fun b hb => by simp [load_or_train, hb], fun id hb hm => ?_, ?_⟩
  · have hex : pathExists s.fs s.modelPath = true := by
      unfold readModel at hm
      unfold pathExists
      rcases hre : resolveEntry s.fs s.modelPath with _ | ⟨c, b⟩
      · rw [hre] at hm; cases hm
      · simp
    simp [load_or_train, hb, hex, hm]
  · intro m hb hfit hmp htp hne hbn
    have hex : pathExists s.fs s.modelPath = false := by
      unfold pathExists
      rw [resolveEntry_of_none hmp]
      rfl
    have hrun : load_or_train env s = ((_save_booster env s m).1, .ok ()) := by
      simp [load_or_train, hb, hex, hfit]
    have hfs := save_fs_clean env s m htp hne (Or.inl (Or.inl hmp))
    have hne' : tsFile env.ts s.modelPath ≠ s.modelPath := fun h => hne h.symm
    refine ⟨by rw [hrun], by rw [hrun]; rfl, ?_, ?_⟩
    · rw [hrun]
      show lookupFS (_save_booster env s m).1.fs (tsFile env.ts s.modelPath) = _
      rw [hfs]
      by_cases hsl : env.symlinkOk = true
      · rw [if_pos hsl, lookupFS_setFS_ne _ _ _ _ hne', lookupFS_setFS_self]
      · rw [if_neg hsl, lookupFS_setFS_ne _ _ _ _ hne', lookupFS_setFS_self]
    · rw [hrun]
      show pathExists (_save_booster env s m).1.fs s.modelPath = true
      rw [hfs]
      by_cases hsl : env.symlinkOk = true
      · rw [if_pos hsl]
        unfold pathExists resolveEntry
        simp only [lookupFS_setFS_self, hbn,
          lookupFS_setFS_ne _ s.modelPath (tsFile env.ts s.modelPath) _ hne',
          Option.isSome_some]
      · rw [if_neg hsl]
        unfold pathExists resolveEntry
        simp only [lookupFS_setFS_self, Option.isSome_some]

/-- C7 witness: on an empty filesystem `load_or_train` trains the demo
model, loads the handle, and leaves the timestamped file and canonical
pointer on disk. -/
theorem C7_witness :
    (load_or_train wEnv wState0).2 = .ok () ∧
    (load_or_train wEnv wState0).1.booster = some 3 ∧
    lookupFS (load_or_train wEnv wState0).1.fs
      "models/model_20251012_020000.txt" = some (.file (.model 3) true) ∧
    pathExists (load_or_train wEnv wState0).1.fs "models/model.txt" = true := by
  have h := (C7_load_or_train_completeness wEnv wState0).2.2 3
    (by decide) (by decide) (by rfl) (by rfl) (by decide) (by decide)
  exact ⟨h.1, h.2.1, h.2.2.1.trans rfl, h.2.2.2.trans rfl⟩

/-! ## Claim C6 -/

/-- C6: on a ready handle, `predict` coerces its input to a matrix — a
single flat sequence is promoted to one row — and delegates the coerced
rows, in order, to the booster's raw predict; under the library contract of
one probability per row the output length equals the number of coerced
rows (1 for a flat input, the row count for a nonempty batch); and a flat
row and the equivalent batch of one produce identical results. -/
theorem C6_predict_shape_normalization (env : Env)
    (pf : Nat → List (List ℚ) → List ℚ) (s : SState) (b : Nat)
    (hb : s.booster = some b) :
    (∀ input, predictSrv env pf s input = (s, .ok (pf b (toMatrix input)))) ∧
    (∀ r, toMatrix (.single r) = [r]) ∧
    ((∀ M, (pf b M).length = M.length) →
      (∀ r, (pf b (toMatrix (.single r))).length = 1) ∧
      (∀ rows, rows ≠ [] → (pf b (toMatrix (.batch rows))).length = rows.length)) ∧
    (∀ r, predictSrv env pf s (.single r) = predictSrv env pf s (.batch [r])) := by
  have hrun : ∀ input, predictSrv env pf s input = (s, .ok (pf b (toMatrix input))) := by
    intro input
    simp [predictSrv, hb]
  refine ⟨hrun, fun r => rfl, fun hlen => ⟨fun r => by rw [hlen]; rfl, ?_⟩, fun r => ?_⟩
  · intro rows hrows
    rw [hlen]
    rcases rows with _ | ⟨r, rest⟩
    · cases hrows rfl
    · rfl
  · rw [hrun (.single r), hrun (.batch [r])]
    rfl

/-- C6 witness: on a loaded handle with a constant booster, a flat two-value
row and the batch of that one row both return the same single probability. -/
theorem C6_witness :
    predictSrv wEnv (fun _ M => M.map fun _ => (1 : ℚ) / 2) wStateLoaded
        (.single [1, 2]) =
      (wStateLoaded, .ok [(1 : ℚ) / 2]) ∧
    predictSrv wEnv (fun _ M => M.map fun _ => (1 : ℚ) / 2) wStateLoaded
        (.batch [[1, 2]]) =
      (wStateLoaded, .ok [(1 : ℚ) / 2]) := by
  have h := C6_predict_shape_normalization wEnv
    (fun _ M => M.map fun _ => (1 : ℚ) / 2) wStateLoaded 7 (by decide)
  exact ⟨(h.1 (.single [1, 2])).trans (by rfl), (h.1 (.batch [[1, 2]])).trans (by rfl)⟩

theorem squeeze_cons_cons (a b : List RVal) (l : List (List RVal)) :
    squeeze (a :: b :: l) =
      if (a :: b :: l).all (·.length = 1) then
        .vec ((a :: b :: l).filterMap List.head?)
      else .mat (a :: b :: l) := rfl

/-- The skipping first parse succeeds on a rectangular CSV with at least 3
lines and at least 2 columns, handing the fit exactly the rows after the
first. -/
theorem trainingMatrix_skip_rect (csv : Csv) (w : Nat)
    (hw : 2 ≤ w) (hlen : 3 ≤ csv.length)
    (hrect : ∀ r ∈ csv, r.length = w) :
    trainingMatrix csv =
      .ok (csv.tail.map fun r => (r.map cellVal).dropLast,
        csv.tail.map fun r => f32ToInt (((r.map cellVal).getLast?).getD none)) ∧
    (csv.tail.map fun r => (r.map cellVal).dropLast).length = csv.length - 1 := by
  rcases csv with _ | ⟨c0, csv'⟩
  · simp at hlen
  rcases csv' with _ | ⟨c1, csv''⟩
  · simp at hlen
  rcases csv'' with _ | ⟨c2, rest⟩
  · simp at hlen
  have h1 : c1.length = w := hrect c1 (by simp)
  have h2 : ∀ r ∈ c1 :: c2 :: rest, r.length = w := fun r hr =>
    hrect r (List.mem_cons_of_mem c0 hr)
  have hcons : consistentRows (c1 :: c2 :: rest) = true := by
    simp only [consistentRows, List.all_eq_true, decide_eq_true_eq]
    intro r hr
    rw [h2 r (List.mem_cons_of_mem c1 hr), h1]
  have hgen : genfromtxtRows (c1 :: c2 :: rest) =
      some ((c1 :: c2 :: rest).map (·.map cellVal)) := by
    simp [genfromtxtRows, hcons]
  have hw1 : (c1.map cellVal).length = w := by simp [h1]
  have hall : (((c1 :: c2 :: rest).map (·.map cellVal)).all
      fun r => r.length = 1) = false := by
    simp only [List.map_cons, List.all_cons, Bool.and_eq_false_iff]
    left
    simp only [hw1, decide_eq_false_iff_not]
    omega
  have hsq : squeeze ((c1 :: c2 :: rest).map (·.map cellVal)) =
      .mat ((c1 :: c2 :: rest).map (·.map cellVal)) := by
    simp only [List.map_cons] at hall ⊢
    rw [squeeze_cons_cons]
    simp [hall]
  have hparse : parseArr (c0 :: c1 :: c2 :: rest) =
      some (.mat ((c1 :: c2 :: rest).map (·.map cellVal))) := by
    simp only [parseArr, List.tail_cons, hgen, hsq]
  constructor
  · simp only [trainingMatrix, hparse]
    rw [if_neg (by simp [hw1]; omega)]
    simp [List.map_map, Function.comp]
  · simp

/-! ## Claim C3 -/

/-- C3 counterexample: on the headerless numeric CSV
`1,2 / 3,4 / 5,6` the first parse attempt (which always skips one line)
succeeds, so the fit sees only the two rows `3,4` and `5,6`: the fitted
matrix has 2 rows while the file has 3 data rows — a data row of a
headerless file is lost, contradicting the claim that the model is fitted
on all data rows of the file. -/
theorem C3_counterexample :
    trainingMatrix cC3Csv =
      .ok ([[some 3], [some 5]], [4, 6]) ∧
    ([[some (3 : ℚ)], [some 5]] : List (List RVal)).length ≠ cC3Csv.length :=
  ⟨by rfl, by decide⟩

/-- C3 amended: the no-skip retry runs exactly when the skipping parse
raises; since a rectangular all-numeric (headerless) CSV with at least 3
lines and at least 2 columns parses successfully on the first, skipping
attempt, the model is fitted on all data rows EXCEPT the first — features =
all columns but the last, label = last column cast to integer — so the
first data row of such a headerless file is silently dropped rather than
preserved. -/
theorem C3_amended_headerless_first_row_lost (csv : Csv) (w : Nat)
    (hw : 2 ≤ w) (hlen : 3 ≤ csv.length)
    (hrect : ∀ r ∈ csv, r.length = w ∧ rowNumeric r = true) :
    trainingMatrix csv =
      .ok (csv.tail.map fun r => (r.map cellVal).dropLast,
        csv.tail.map fun r => f32ToInt (((r.map cellVal).getLast?).getD none)) ∧
    (csv.tail.map fun r => (r.map cellVal).dropLast).length = csv.length - 1 :=
  trainingMatrix_skip_rect csv w hw hlen fun r hr => (hrect r hr).1

/-- C3 witness: the amended statement evaluated on the concrete headerless
3-by-2 CSV — two fitted rows out of three. -/
theorem C3_witness :
    trainingMatrix cC3Csv =
      .ok ([[some 3], [some 5]], [4, 6]) ∧
    ([[some (3 : ℚ)], [some 5]] : List (List RVal)).length = cC3Csv.length - 1 := by
  have h := C3_amended_headerless_first_row_lost cC3Csv 2 (by decide) (by decide)
    (by decide)
  exact ⟨h.1.trans (by rfl), by decide⟩

theorem trainingMatrix_error_cases (csv : Csv) (e : Err)
    (h : trainingMatrix csv = .error e) : e = .validation ∨ e = .indexError := by
  unfold trainingMatrix at h
  rcases hp : parseArr csv with _ | arr <;> rw [hp] at h
  · left; cases h; rfl
  · rcases arr with rows | v | v
    · by_cases hw : ((rows.head?.getD []).length < 2) <;> simp [hw] at h
      left; exact h.symm
    · left; cases h; rfl
    · right; cases h; rfl

/-- On a rectangular CSV of at least 2 columns with at most 2 lines, the
parse leaves at most one data row — a one-dimensional array — so the shape
check raises `ValueError`. -/
theorem trainingMatrix_rect_le2 (csv : Csv) (w : Nat)
    (hw : 2 ≤ w) (hlen : csv.length ≤ 2)
    (hrect : ∀ r ∈ csv, r.length = w) :
    trainingMatrix csv = .error .validation := by
  rcases csv with _ | ⟨c0, csv'⟩
  · rfl
  rcases csv' with _ | ⟨c1, csv''⟩
  · rfl
  rcases csv'' with _ | ⟨c2, rest⟩
  · have h1 : c1.length = w := hrect c1 (by simp)
    rcases c1 with _ | ⟨a, c1'⟩
    · simp at h1; omega
    rcases c1' with _ | ⟨b, c1''⟩
    · simp at h1; omega
    rfl
  · simp at hlen

/-- On a rectangular single-column CSV with at least 3 lines, the parse
squeezes to a one-dimensional column, so the shape check raises
`ValueError`. -/
theorem trainingMatrix_col1_ge3 (csv : Csv)
    (hlen : 3 ≤ csv.length)
    (hrect : ∀ r ∈ csv, r.length = 1) :
    trainingMatrix csv = .error .validation := by
  rcases csv with _ | ⟨c0, csv'⟩
  · simp at hlen
  rcases csv' with _ | ⟨c1, csv''⟩
  · simp at hlen
  rcases csv'' with _ | ⟨c2, rest⟩
  · simp at hlen
  have h2 : ∀ r ∈ c1 :: c2 :: rest, r.length = 1 := fun r hr =>
    hrect r (List.mem_cons_of_mem c0 hr)
  have hcons : consistentRows (c1 :: c2 :: rest) = true := by
    simp only [consistentRows, List.all_eq_true, decide_eq_true_eq]
    intro r hr
    rw [h2 r (List.mem_cons_of_mem c1 hr), h2 c1 (by simp)]
  have hgen : genfromtxtRows (c1 :: c2 :: rest) =
      some ((c1 :: c2 :: rest).map (·.map cellVal)) := by
    simp [genfromtxtRows, hcons]
  have hall : (((c1 :: c2 :: rest).map (·.map cellVal)).all
      fun r => r.length = 1) = true := by
    simp only [List.all_eq_true, List.mem_map, decide_eq_true_eq]
    rintro r ⟨c, hc, rfl⟩
    simp [h2 c hc]
  have hsq : squeeze ((c1 :: c2 :: rest).map (·.map cellVal)) =
      .vec (((c1 :: c2 :: rest).map (·.map cellVal)).filterMap List.head?) := by
    simp only [List.map_cons] at hall ⊢
    rw [squeeze_cons_cons]
    simp [hall]
  have hparse : parseArr (c0 :: c1 :: c2 :: rest) =
      some (.vec (((c1 :: c2 :: rest).map (·.map cellVal)).filterMap List.head?)) := by
    simp only [parseArr, List.tail_cons, hgen, hsq]
  simp [trainingMatrix, hparse]

/-! ## Claim C2 -/

/-- C2 counterexample: the source file exists and the (header-skipping)
parse succeeds with a single data row of THREE columns — not fewer than 2 —
yet `train_from_file` fails with `ValueError`, because a single parsed row
is a one-dimensional array.  This contradicts "ValidationError if and only
if the parsed matrix has fewer than 2 columns". -/
theorem C2_counterexample :
    pathExists cC2State.fs "data/train.csv" = true ∧
    genfromtxtRows cC2Csv.tail = some [[some 1, some 2, some 3]] ∧
    (train_from_file wEnv cC2State "data/train.csv").2 = .error .validation :=
  ⟨by decide, by decide, by rfl⟩

/-- C2 amended: `train_from_file` fails with NotFound exactly when no file
is reachable at the path.  For an existing rectangular all-numeric CSV: with
at least 2 columns it fails with ValidationError exactly when the file has
at most 2 lines (after the unconditional one-line skip at most one row
remains, a one-dimensional parse), and with at least 3 lines it succeeds and
returns the timestamped path whenever the library fit succeeds; with exactly
1 column it fails with ValidationError for every line count other than 2
(a two-line single-column file instead squeezes to a zero-dimensional array
and raises an IndexError). -/
theorem C2_amended_error_characterization :
    (∀ env s p, (train_from_file env s p).2 = .error .notFound ↔
      pathExists s.fs p = false) ∧
    (∀ env s p csv w, readCsv s.fs p = some csv →
      (∀ r ∈ csv, r.length = w) → 2 ≤ w →
      ((train_from_file env s p).2 = .error .validation ↔ csv.length ≤ 2)) ∧
    (∀ env s p csv w m, readCsv s.fs p = some csv →
      (∀ r ∈ csv, r.length = w) → 2 ≤ w → 3 ≤ csv.length →
      env.fit (csv.tail.map fun r => (r.map cellVal).dropLast)
        (csv.tail.map fun r => f32ToInt (((r.map cellVal).getLast?).getD none)) =
        some m →
      (train_from_file env s p).2 = .ok (tsFile env.ts s.modelPath)) ∧
    (∀ env s p csv, readCsv s.fs p = some csv →
      (∀ r ∈ csv, r.length = 1) →
      ((train_from_file env s p).2 = .error .validation ↔ csv.length ≠ 2)) := by
  refine ⟨fun env s p => ⟨fun h => ?_, fun h => by simp [train_from_file, h]⟩,
    fun env s p csv w hcsv hrect hw => ?_, fun env s p csv w m hcsv hrect hw hlen hfit => ?_,
    fun env s p csv hcsv hrect => ?_⟩
  · rcases hex : pathExists s.fs p with _ | _
    · rfl
    · exfalso
      rcases hcsvq : readCsv s.fs p with _ | csv
      · simp [train_from_file, hex, hcsvq] at h
      · rcases htm : trainingMatrix csv with e' | ⟨X, y⟩
        · have hcases := trainingMatrix_error_cases csv e' htm
          have h' : e' = Err.notFound := by
            simpa [train_from_file, hex, hcsvq, htm] using h
          rcases hcases with h1 | h1 <;> rw [h'] at h1 <;> cases h1
        · rcases hfit : env.fit X y with _ | m <;>
            simp [train_from_file, hex, hcsvq, htm, hfit] at h
  · have hex : pathExists s.fs p = true := pathExists_of_readCsv hcsv
    constructor
    · intro h
      by_contra hlen
      push_neg at hlen
      set X := csv.tail.map fun r => (r.map cellVal).dropLast with hX
      set y := csv.tail.map fun r => f32ToInt (((r.map cellVal).getLast?).getD none)
        with hY
      have htm : trainingMatrix csv = .ok (X, y) :=
        (trainingMatrix_skip_rect csv w hw hlen hrect).1
      rcases hfit : env.fit X y with _ | m <;>
        simp [train_from_file, hex, hcsv, htm, hfit] at h
    · intro hlen
      have htm := trainingMatrix_rect_le2 csv w hw hlen hrect
      simp [train_from_file, hex, hcsv, htm]
  · have hex : pathExists s.fs p = true := pathExists_of_readCsv hcsv
    set X := csv.tail.map fun r => (r.map cellVal).dropLast with hX
    set y := csv.tail.map fun r => f32ToInt (((r.map cellVal).getLast?).getD none)
      with hY
    have htm : trainingMatrix csv = .ok (X, y) :=
      (trainingMatrix_skip_rect csv w hw hlen hrect).1
    have hrun : train_from_file env s p =
        ((_save_booster env s m).1, .ok (_save_booster env s m).2) := by
      simp [train_from_file, hex, hcsv, htm, hfit]
    rw [hrun]
    rfl
  · have hex : pathExists s.fs p = true := pathExists_of_readCsv hcsv
    rcases csv with _ | ⟨c0, csv'⟩
    · simp [train_from_file, hex, hcsv,
        show trainingMatrix ([] : Csv) = .error .validation from rfl]
    rcases csv' with _ | ⟨c1, csv''⟩
    · simp [train_from_file, hex, hcsv,
        show trainingMatrix [c0] = .error .validation from rfl]
    rcases csv'' with _ | ⟨c2, rest⟩
    · -- exactly two lines, one column: the parse is zero-dimensional
      have h1 : c1.length = 1 := hrect c1 (by simp)
      rcases c1 with _ | ⟨a, c1'⟩
      · simp at h1
      rcases c1' with _ | ⟨b, c1''⟩
      · simp [train_from_file, hex, hcsv,
          show trainingMatrix [c0, [a]] = .error .indexError from rfl]
      · simp at h1
    · have hlen : 3 ≤ (c0 :: c1 :: c2 :: rest).length := by
        simp only [List.length_cons]; omega
      have htm := trainingMatrix_col1_ge3 _ hlen hrect
      have hne2 : (c0 :: c1 :: c2 :: rest).length ≠ 2 := by
        simp only [List.length_cons]; omega
      simp [train_from_file, hex, hcsv, htm, hne2]

/-- C2 witness: the fixture CSV (header plus three 2-column data rows)
exists, trains successfully, and returns the timestamped path; the same
file truncated to two lines fails with ValidationError; a missing path
fails with NotFound. -/
theorem C2_witness :
    (train_from_file wEnv wStateCsv "data/train.csv").2 =
      .ok "models/model_20251012_020000.txt" ∧
    (train_from_file wEnv wStateCsv "data/absent.csv").2 = .error .notFound ∧
    (train_from_file wEnv
        { wStateCsv with
          fs := [("data/train.csv", .file (.csv (wCsv.take 2)) true)] }
        "data/train.csv").2 = .error .validation := by
  have hmain := C2_amended_error_characterization
  refine ⟨?_, ?_, ?_⟩
  · have h := hmain.2.2.1 wEnv wStateCsv "data/train.csv" wCsv 2 7
      (by rfl) (by decide) (by decide) (by decide) (by rfl)
    exact h.trans (by rfl)
  · exact (hmain.1 wEnv wStateCsv "data/absent.csv").2 (by decide)
  · exact ((hmain.2.1 wEnv
      { wStateCsv with
        fs := [("data/train.csv", .file (.csv (wCsv.take 2)) true)] }
      "data/train.csv" (wCsv.take 2) 2 (by rfl) (by decide) (by decide))).2
      (by decide)

/-- A successful `train_from_file` went through `_save_booster` with the
fitted model and returned the timestamped path of this call's clock. -/
theorem train_ok_struct (env : Env) (s : SState) (d p : String)
    (h : (train_from_file env s d).2 = .ok p) :
    ∃ m, train_from_file env s d =
        ((_save_booster env s m).1, .ok (tsFile env.ts s.modelPath)) ∧
      p = tsFile env.ts s.modelPath := by
  by_cases hex : pathExists s.fs d = true
  · rcases hcsv : readCsv s.fs d with _ | csv
    · simp [train_from_file, hex, hcsv] at h
    · rcases htm : trainingMatrix csv with e' | ⟨X, y⟩
      · simp [train_from_file, hex, hcsv, htm] at h
      · rcases hfit : env.fit X y with _ | m
        · simp [train_from_file, hex, hcsv, htm, hfit] at h
        · have hrun : train_from_file env s d =
              ((_save_booster env s m).1, .ok (_save_booster env s m).2) := by
            simp [train_from_file, hex, hcsv, htm, hfit]
          refine ⟨m, hrun.trans (by rfl), ?_⟩
          rw [hrun] at h
          exact (Except.ok.injEq _ _ ▸ congrArg id h).symm
  · simp [train_from_file, hex] at h

/-- `train_from_file` never changes the configured canonical path. -/
theorem train_modelPath (env : Env) (s : SState) (d : String) :
    (train_from_file env s d).1.modelPath = s.modelPath := by
  by_cases hex : pathExists s.fs d = true
  · rcases hcsv : readCsv s.fs d with _ | csv
    · simp [train_from_file, hex, hcsv]
    · rcases htm : trainingMatrix csv with e' | ⟨X, y⟩
      · simp [train_from_file, hex, hcsv, htm]
      · rcases hfit : env.fit X y with _ | m
        · simp [train_from_file, hex, hcsv, htm, hfit]
        · have hrun : train_from_file env s d =
              ((_save_booster env s m).1, .ok (_save_booster env s m).2) := by
            simp [train_from_file, hex, hcsv, htm, hfit]
          rw [hrun]
          rfl
  · simp [train_from_file, hex]

/-- Cancel a common prefix and suffix of string concatenations. -/
theorem string_append_mid_cancel {pre suf a b : String}
    (h : pre ++ a ++ suf = pre ++ b ++ suf) : a = b := by
  have hd := congrArg String.data h
  simp only [String.data_append] at hd
  have h1 : a.data ++ suf.data = b.data ++ suf.data := by
    rw [List.append_assoc pre.data a.data suf.data,
      List.append_assoc pre.data b.data suf.data] at hd
    exact List.append_cancel_left hd
  exact String.ext (List.append_cancel_right h1)

/-- Distinct timestamp strings give distinct timestamped paths for one
canonical path. -/
theorem tsFile_inj {mp a b : String} (h : tsFile a mp = tsFile b mp) : a = b := by
  unfold tsFile joinPath at h
  by_cases hd : dirName mp = ""
  · rw [if_pos hd, if_pos hd] at h
    exact string_append_mid_cancel h
  · rw [if_neg hd, if_neg hd] at h
    have hd2 := congrArg String.data h
    simp only [String.data_append] at hd2
    have h3 := List.append_cancel_left hd2
    exact String.ext (List.append_cancel_left (List.append_cancel_right h3))

/-! ## Claim C4 -/

/-- C4 counterexample: the timestamp has second resolution, so two
successful `train_from_file` calls within the same second (same clock
string) in one service history return the SAME timestamped path — the
second call overwrites the first call's model file instead of producing a
distinct one. -/
theorem C4_counterexample :
    (train_from_file wEnv wStateCsv "data/train.csv").2 =
      .ok "models/model_20251012_020000.txt" ∧
    (train_from_file wEnv (train_from_file wEnv wStateCsv "data/train.csv").1
        "data/train.csv").2 = .ok "models/model_20251012_020000.txt" :=
  ⟨by rfl, by rfl⟩

/-- C4 amended: two successful `train_from_file` calls in one history
return distinct timestamped paths PROVIDED their second-resolution
timestamp strings differ; and, when the symlink replace of the second call
succeeds (platform support, `os.remove` succeeds, fresh timestamped path),
that call repoints the canonical path to a symlink naming exactly the file
it just wrote, which holds the new completely written model. -/
theorem C4_amended_distinct_ts_and_repoint (env1 env2 : Env) (s0 : SState)
    (d1 d2 p1 p2 : String)
    (h1 : (train_from_file env1 s0 d1).2 = .ok p1)
    (h2 : (train_from_file env2 (train_from_file env1 s0 d1).1 d2).2 = .ok p2) :
    (env1.ts ≠ env2.ts → p1 ≠ p2) ∧
    (env2.symlinkOk = true → env2.removeOk = true →
      lookupFS (train_from_file env1 s0 d1).1.fs (tsFile env2.ts s0.modelPath) =
        none →
      s0.modelPath ≠ tsFile env2.ts s0.modelPath →
      ∃ m, lookupFS (train_from_file env2 (train_from_file env1 s0 d1).1 d2).1.fs
          s0.modelPath = some (.symlink (baseName p2)) ∧
        lookupFS (train_from_file env2 (train_from_file env1 s0 d1).1 d2).1.fs
          p2 = some (.file (.model m) true) ∧
        (train_from_file env2 (train_from_file env1 s0 d1).1 d2).1.booster =
          some m) := by
  obtain ⟨m1, hrun1, hp1⟩ := train_ok_struct env1 s0 d1 p1 h1
  obtain ⟨m2, hrun2, hp2⟩ := train_ok_struct env2 _ d2 p2 h2
  have hmp1 : (train_from_file env1 s0 d1).1.modelPath = s0.modelPath :=
    train_modelPath env1 s0 d1
  have hp2' : p2 = tsFile env2.ts s0.modelPath := by rw [hp2, hmp1]
  constructor
  · intro hts hpp
    exact hts (@tsFile_inj s0.modelPath _ _ (by rw [← hp1, ← hp2', hpp]))
  · intro hsl hrm htp hne
    set s1 := (train_from_file env1 s0 d1).1 with hs1
    have htp' : lookupFS s1.fs (tsFile env2.ts s1.modelPath) = none := by
      rw [hmp1]; exact htp
    have hne' : s1.modelPath ≠ tsFile env2.ts s1.modelPath := by
      rw [hmp1]; exact hne
    have hfs := save_fs_clean env2 s1 m2 htp' hne' (Or.inl (Or.inr hrm))
    rw [if_pos hsl] at hfs
    have hfseq : (train_from_file env2 s1 d2).1.fs = (_save_booster env2 s1 m2).1.fs := by
      rw [hrun2]
    have hbeq : (train_from_file env2 s1 d2).1.booster = some m2 := by
      rw [hrun2]; rfl
    refine ⟨m2, ?_, ?_, hbeq⟩
    · rw [hfseq, hfs, hp2', ← hmp1]
      exact lookupFS_setFS_self _ _ _
    · rw [hfseq, hfs, hp2', ← hmp1]
      rw [lookupFS_setFS_ne _ _ _ _ (fun h => hne' h.symm)]
      exact lookupFS_setFS_self _ _ _

/-- C4 witness: two successful calls one day apart return distinct paths,
and the second call leaves the canonical path as a symlink to the file it
wrote. -/
theorem C4_witness :
    ("models/model_20251012_020000.txt" : String) ≠
      "models/model_20251013_020000.txt" ∧
    lookupFS (train_from_file wEnv2 (train_from_file wEnv wStateCsv
        "data/train.csv").1 "data/train.csv").1.fs "models/model.txt" =
      some (.symlink "model_20251013_020000.txt") := by
  have h := C4_amended_distinct_ts_and_repoint wEnv wEnv2 wStateCsv
    "data/train.csv" "data/train.csv"
    "models/model_20251012_020000.txt" "models/model_20251013_020000.txt"
    (by rfl) (by rfl)
  have hd := h.1 (by decide)
  have hr := h.2 (by rfl) (by rfl) (by rfl) (by decide)
  obtain ⟨m, hlink, hfile, hboost⟩ := hr
  exact ⟨hd, hlink.trans (by rfl)⟩

/-! ## Well-formedness and pointer-observation lemmas -/

theorem wfFS_setFS {fs : FS} (p : String) (e : Entry) (h : wfFS fs) :
    wfFS (setFS fs p e) := by
  unfold wfFS setFS at *
  simp only [List.map_cons, List.nodup_cons]
  constructor
  · intro hmem
    rcases List.mem_map.1 hmem with ⟨kv, hkv, hk⟩
    have := List.of_mem_filter hkv
    simp only [decide_not, Bool.not_eq_true', decide_eq_false_iff_not] at this
    exact this hk
  · exact h.sublist ((List.filter_sublist _).map Prod.fst)

theorem wfFS_eraseFS {fs : FS} (p : String) (h : wfFS fs) :
    wfFS (eraseFS fs p) :=
  h.sublist ((List.filter_sublist _).map Prod.fst)

theorem wfFS_applyOp {fs : FS} (op : FsOp) (h : wfFS fs) :
    wfFS (applyOp fs op) := by
  rcases op with ⟨p, m⟩ | p | p | ⟨p, t⟩
  · exact wfFS_setFS _ _ h
  · show wfFS (match lookupFS fs (writeTarget fs p) with
      | some (.file c _) => setFS fs (writeTarget fs p) (.file c true)
      | _ => fs)
    rcases hl : lookupFS fs (writeTarget fs p) with _ | e
    · simpa using h
    · rcases e with ⟨c, b⟩ | t
      · simpa using wfFS_setFS (writeTarget fs p) (.file c true) h
      · simpa using h
  · exact wfFS_eraseFS _ h
  · exact wfFS_setFS _ _ h

theorem countKey_eq_zero {fs : FS} {p : String}
    (h : p ∉ fs.map Prod.fst) : countKey fs p = 0 := by
  unfold countKey
  rw [List.length_eq_zero, List.filter_eq_nil_iff]
  intro kv hkv
  simp only [decide_eq_true_eq]
  intro hk
  exact h (List.mem_map.2 ⟨kv, hkv, hk⟩)

theorem countKey_le_one_of_wf {fs : FS} (p : String) (h : wfFS fs) :
    countKey fs p ≤ 1 := by
  induction fs with
  | nil => simp [countKey]
  | cons kv tl ih =>
    unfold wfFS at h
    simp only [List.map_cons, List.nodup_cons] at h
    unfold countKey
    by_cases hk : kv.1 = p
    · rw [List.filter_cons_of_pos (by simpa using hk)]
      have : countKey tl p = 0 := countKey_eq_zero (by rw [hk] at h; exact h.1)
      unfold countKey at this
      simp [this]
    · rw [List.filter_cons_of_neg (by simpa using hk)]
      exact ih h.2

/-- Writes to a path other than `mp` that is also not the target of an
`mp` symlink do not change what a reader of `mp` observes. -/
theorem resolveEntry_setFS_indep {fs : FS} {q mp : String} (e : Entry)
    (hq : mp ≠ q)
    (hs : ∀ t, lookupFS fs mp = some (.symlink t) → joinPath (dirName mp) t ≠ q) :
    resolveEntry (setFS fs q e) mp = resolveEntry fs mp := by
  unfold resolveEntry
  rw [lookupFS_setFS_ne _ _ _ _ hq]
  rcases hl : lookupFS fs mp with _ | e'
  · rfl
  · rcases e' with ⟨c, b⟩ | t
    · rfl
    · show (match lookupFS (setFS fs q e) (joinPath (dirName mp) t) with
        | some (.file c b) => some (c, b)
        | _ => none) =
        (match lookupFS fs (joinPath (dirName mp) t) with
        | some (.file c b) => some (c, b)
        | _ => none)
      rw [lookupFS_setFS_ne _ _ _ _ (hs t hl)]

theorem wfFS_applyOps {fs : FS} (ops : List FsOp) (h : wfFS fs) :
    wfFS (applyOps fs ops) := by
  induction ops generalizing fs with
  | nil => exact h
  | cons op rest ih => exact ih (wfFS_applyOp op h)

/-! ## Claim C1 -/

/-- C1 counterexample: when the symlink replace is unavailable,
`_save_booster` falls back to rewriting the canonical path in place.  After
the fourth primitive effect of that execution (the fallback's `beginWrite`
over the canonical path) a reader resolving the canonical pointer observes
the new model with its write NOT yet complete — refuting "no reader of the
pointer ever observes a partially written model". -/
theorem C1_counterexample :
    (saveOps wEnvNoLink cC1Fs wMp 9).take 4 =
      [.beginWrite "models/model_20251012_020000.txt" 9,
       .endWrite "models/model_20251012_020000.txt",
       .remove "models/model.txt",
       .beginWrite "models/model.txt" 9] ∧
    resolveEntry (applyOps cC1Fs ((saveOps wEnvNoLink cC1Fs wMp 9).take 4))
      "models/model.txt" = some (.model 9, false) ∧
    pointerOk (applyOps cC1Fs ((saveOps wEnvNoLink cC1Fs wMp 9).take 4))
      "models/model.txt" = false :=
  ⟨by decide, by decide, by decide⟩

/-- C1 amended: with a fresh timestamped path, `_save_booster` always fully
writes the timestamped file before any effect touches the canonical path
(write-then-swap ordering); every intermediate filesystem keeps at most one
entry for the canonical path; and — when the symbolic-link replace is
actually taken (platform support, removable old pointer, link target
resolving to the fresh timestamped file) — a reader of the canonical
pointer observes a completely written model, or no pointer at all, at every
intermediate point.  In the direct-overwrite fallback the last guarantee
fails (see the counterexample). -/
theorem C1_amended_pointer_integrity (env : Env) (s : SState) (m : Nat)
    (htp : lookupFS s.fs (tsFile env.ts s.modelPath) = none)
    (hne : s.modelPath ≠ tsFile env.ts s.modelPath) :
    (∃ rest, saveOps env s.fs s.modelPath m =
        [.beginWrite (tsFile env.ts s.modelPath) m,
         .endWrite (tsFile env.ts s.modelPath)] ++ rest ∧
      ∀ op ∈ rest, opPath op = s.modelPath) ∧
    (wfFS s.fs → ∀ k, countKey
      (applyOps s.fs ((saveOps env s.fs s.modelPath m).take k)) s.modelPath ≤ 1) ∧
    (env.symlinkOk = true → env.removeOk = true →
      joinPath (dirName s.modelPath) (baseName (tsFile env.ts s.modelPath)) =
        tsFile env.ts s.modelPath →
      (∀ t, lookupFS s.fs s.modelPath = some (.symlink t) →
        joinPath (dirName s.modelPath) t ≠ tsFile env.ts s.modelPath) →
      pointerOk s.fs s.modelPath = true →
      ∀ k, pointerOk (applyOps s.fs ((saveOps env s.fs s.modelPath m).take k))
        s.modelPath = true) := by
  set tp := tsFile env.ts s.modelPath with htpdef
  set mp := s.modelPath with hmpdef
  have hne' : tp ≠ mp := fun h => hne h.symm
  refine ⟨?_, ?_, ?_⟩
  · refine ⟨(if lookupFS s.fs mp = none then []
      else if env.removeOk = true then [FsOp.remove mp] else []) ++
      (if env.symlinkOk = true ∧ (lookupFS s.fs mp = none ∨ env.removeOk = true)
        then [FsOp.mklink mp (baseName tp)]
        else [FsOp.beginWrite mp m, FsOp.endWrite mp]), ?_, ?_⟩
    · rw [saveOps_eq env s.fs mp m htp hne, List.append_assoc]
    · intro op hop
      rcases List.mem_append.1 hop with h | h
      · split at h
        · cases h
        · split at h
          · simp only [List.mem_singleton] at h
            subst h; rfl
          · cases h
      · split at h
        · simp only [List.mem_singleton] at h
          subst h; rfl
        · simp only [List.mem_cons, List.not_mem_nil, or_false] at h
          rcases h with h | h <;> (subst h; rfl)
  · intro hwf k
    exact countKey_le_one_of_wf _ (wfFS_applyOps _ hwf)
  · intro hsl hrm hbn hfresh hpo k
    rw [saveOps_eq env s.fs mp m htp hne]
    have hstep1 : applyOp s.fs (FsOp.beginWrite tp m) =
        setFS s.fs tp (.file (.model m) false) := by
      simp [applyOp, writeTarget, htp]
    have hstep2 : applyOps s.fs [FsOp.beginWrite tp m, FsOp.endWrite tp] =
        setFS s.fs tp (.file (.model m) true) := applyOps_write m (Or.inl htp)
    have hind1 : pointerOk (setFS s.fs tp (.file (.model m) false)) mp = true := by
      unfold pointerOk
      rw [resolveEntry_setFS_indep _ hne hfresh]
      exact hpo
    have hind2 : pointerOk (setFS s.fs tp (.file (.model m) true)) mp = true := by
      unfold pointerOk
      rw [resolveEntry_setFS_indep _ hne hfresh]
      exact hpo
    have hfin : ∀ fs2 : FS, lookupFS fs2 tp = some (.file (.model m) true) →
        pointerOk (setFS fs2 mp (.symlink (baseName tp))) mp = true := by
      intro fs2 hl2
      have hres : resolveEntry (setFS fs2 mp (.symlink (baseName tp))) mp =
          some (.model m, true) := by
        simp only [resolveEntry, lookupFS_setFS_self]
        rw [hbn, lookupFS_setFS_ne _ _ _ _ hne', hl2]
      unfold pointerOk
      rw [hres]
    rcases hl : lookupFS s.fs mp with _ | e
    · have hops : (([FsOp.beginWrite tp m, FsOp.endWrite tp] ++
          (if (none : Option Entry) = none then []
            else if env.removeOk = true then [FsOp.remove mp] else [])) ++
          (if env.symlinkOk = true ∧ ((none : Option Entry) = none ∨ env.removeOk = true)
            then [FsOp.mklink mp (baseName tp)]
            else [FsOp.beginWrite mp m, FsOp.endWrite mp])) =
          [FsOp.beginWrite tp m, FsOp.endWrite tp, FsOp.mklink mp (baseName tp)] := by
        rw [if_pos rfl, if_pos ⟨hsl, Or.inl rfl⟩]
        rfl
      rw [hops]
      match k with
      | 0 => exact hpo
      | 1 =>
        show pointerOk (applyOp s.fs (FsOp.beginWrite tp m)) mp = true
        rw [hstep1]; exact hind1
      | 2 =>
        show pointerOk (applyOps s.fs [FsOp.beginWrite tp m, FsOp.endWrite tp])
          mp = true
        rw [hstep2]; exact hind2
      | (n + 3) =>
        rw [List.take_of_length_le (by simp)]
        show pointerOk (applyOps
          (applyOps s.fs [FsOp.beginWrite tp m, FsOp.endWrite tp])
          [FsOp.mklink mp (baseName tp)]) mp = true
        rw [hstep2]
        show pointerOk (setFS (setFS s.fs tp (.file (.model m) true)) mp
          (.symlink (baseName tp))) mp = true
        exact hfin _ (lookupFS_setFS_self _ _ _)
    · have hops : (([FsOp.beginWrite tp m, FsOp.endWrite tp] ++
          (if some e = none then []
            else if env.removeOk = true then [FsOp.remove mp] else [])) ++
          (if env.symlinkOk = true ∧ (some e = none ∨ env.removeOk = true)
            then [FsOp.mklink mp (baseName tp)]
            else [FsOp.beginWrite mp m, FsOp.endWrite mp])) =
          [FsOp.beginWrite tp m, FsOp.endWrite tp, FsOp.remove mp,
            FsOp.mklink mp (baseName tp)] := by
        rw [if_neg (by simp), if_pos hrm, if_pos ⟨hsl, Or.inr hrm⟩]
        rfl
      rw [hops]
      match k with
      | 0 => exact hpo
      | 1 =>
        show pointerOk (applyOp s.fs (FsOp.beginWrite tp m)) mp = true
        rw [hstep1]; exact hind1
      | 2 =>
        show pointerOk (applyOps s.fs [FsOp.beginWrite tp m, FsOp.endWrite tp])
          mp = true
        rw [hstep2]; exact hind2
      | 3 =>
        show pointerOk (applyOps
          (applyOps s.fs [FsOp.beginWrite tp m, FsOp.endWrite tp])
          [FsOp.remove mp]) mp = true
        rw [hstep2]
        show pointerOk (eraseFS (setFS s.fs tp (.file (.model m) true)) mp)
          mp = true
        unfold pointerOk
        rw [resolveEntry_of_none (lookupFS_eraseFS_self _ _)]
      | (n + 4) =>
        rw [List.take_of_length_le (by simp)]
        show pointerOk (applyOps (applyOps
          (applyOps s.fs [FsOp.beginWrite tp m, FsOp.endWrite tp])
          [FsOp.remove mp]) [FsOp.mklink mp (baseName tp)]) mp = true
        rw [hstep2]
        show pointerOk (setFS (eraseFS (setFS s.fs tp (.file (.model m) true)) mp)
          mp (.symlink (baseName tp))) mp = true
        refine hfin _ ?_
        rw [lookupFS_eraseFS_ne _ _ _ hne', lookupFS_setFS_self]

/-- C1 witness: a successful symlink swap over an existing complete model —
the pointer observation stays "complete or absent" at every step (shown at
the step just after the old pointer removal and at the final state), the
effect list starts with the full write of the timestamped file, and entry
uniqueness holds. -/
theorem C1_witness :
    pointerOk (applyOps cC1Fs ((saveOps wEnv cC1Fs wMp 5).take 3)) wMp = true ∧
    pointerOk (applyOps cC1Fs ((saveOps wEnv cC1Fs wMp 5).take 4)) wMp = true ∧
    countKey (applyOps cC1Fs ((saveOps wEnv cC1Fs wMp 5).take 4)) wMp ≤ 1 := by
  have h := C1_amended_pointer_integrity wEnv
    { modelPath := wMp, booster := some 1, fs := cC1Fs } 5 (by decide) (by decide)
  have hc := h.2.2 (by rfl) (by rfl) (by decide)
    (by
      intro t ht
      rw [show lookupFS cC1Fs wMp = some (Entry.file (.model 1) true) from rfl] at ht
      simp at ht)
    (by decide)
  exact ⟨hc 3, hc 4, h.2.1 (show (cC1Fs.map Prod.fst).Nodup by decide) 4⟩

/-! ## List access lemmas for the thread table -/

theorem get?_set_self' {α : Type} (l : List α) (i : Nat) (a : α)
    (h : i < l.length) : (l.set i a).get? i = some a := by
  rw [List.get?_eq_getElem?]
  exact List.getElem?_set_eq_of_lt a h

theorem get?_set_diff {α : Type} (l : List α) {i j : Nat} (a : α)
    (h : i ≠ j) : (l.set i a).get? j = l.get? j := by
  rw [List.get?_eq_getElem?, List.get?_eq_getElem?]
  exact List.getElem?_set_ne h

theorem lt_length_of_get?_some {α : Type} {l : List α} {i : Nat} {a : α}
    (h : l.get? i = some a) : i < l.length := by
  by_contra hge
  rw [List.get?_eq_getElem?, List.getElem?_eq_none (by omega)] at h
  cases h

theorem replicate_get? {α : Type} {n j : Nat} {a st : α}
    (h : (List.replicate n a).get? j = some st) : st = a := by
  have hlt : j < n := by simpa using lt_length_of_get?_some h
  rw [List.get?_eq_getElem?, List.getElem?_replicate_of_lt hlt] at h
  exact (Option.some.inj h).symm

/-! ## The lock invariant -/

theorem invC_init (env : Env) (m : Nat) (mp : String) (fs0 : FS) (n : Nat) :
    InvC env m { modelPath := mp, booster := none, fs := fs0 } n
      (initC mp fs0 n) := by
  refine ⟨by simp [initC], ?_, by simp [initC], fun _ => rfl, ?_, ?_, ?_⟩
  · intro j st hj hcrit
    have hst : st = TPC.start := replicate_get? hj
    subst hst
    rcases hcrit with h | h | h <;> cases h
  · intro h1
    simp [initC] at h1
  · intro _ j st hj
    have hst : st = TPC.start := replicate_get? hj
    subst hst
    exact ⟨by simp, by simp⟩
  · intro j hj
    cases replicate_get? hj

theorem invC_step (env : Env) (m : Nat) (svc0 : SState) (n : Nat)
    (hdemo : env.demoFit = some m)
    (hb0 : svc0.booster = none)
    (hex0 : pathExists svc0.fs svc0.modelPath = false)
    {cs cs' : CState} (hinv : InvC env m svc0 n cs) (hstep : CStep env cs cs') :
    InvC env m svc0 n cs' := by
  obtain ⟨hlen, hlock, hle, h0, h1, hnoexit, hmt⟩ := hinv
  cases hstep with
  | acquire i hpc hl =>
    refine ⟨by simpa [List.length_set] using hlen, ?_, hle, h0, h1, ?_, ?_⟩
    · intro j st hj hcrit
      by_cases hij : i = j
      · subst hij; rfl
      · rw [get?_set_diff _ _ hij] at hj
        have := hlock j st hj hcrit
        rw [hl] at this
        cases this
    · intro ht0 j st hj
      by_cases hij : i = j
      · subst hij
        rw [get?_set_self' _ _ _ (lt_length_of_get?_some hpc)] at hj
        cases hj
        exact ⟨by simp, by simp⟩
      · rw [get?_set_diff _ _ hij] at hj
        exact hnoexit ht0 j st hj
    · intro j hj
      by_cases hij : i = j
      · subst hij
        rw [get?_set_self' _ _ _ (lt_length_of_get?_some hpc)] at hj
        cases hj
      · rw [get?_set_diff _ _ hij] at hj
        exact hmt j hj
  | checkLoaded i hpc hl hb =>
    refine ⟨by simpa [List.length_set] using hlen, ?_, hle, h0, h1, ?_, ?_⟩
    · intro j st hj hcrit
      by_cases hij : i = j
      · subst hij; exact hl
      · rw [get?_set_diff _ _ hij] at hj
        exact hlock j st hj hcrit
    · intro ht0
      exfalso
      rw [h0 ht0, hb0] at hb
      cases hb
    · intro j hj
      by_cases hij : i = j
      · subst hij
        rw [get?_set_self' _ _ _ (lt_length_of_get?_some hpc)] at hj
        cases hj
      · rw [get?_set_diff _ _ hij] at hj
        exact hmt j hj
  | checkLoadOk i id hpc hl hb hex hid =>
    refine ⟨by simpa [List.length_set] using hlen, ?_, hle, ?_, ?_, ?_, ?_⟩
    · intro j st hj hcrit
      by_cases hij : i = j
      · subst hij; exact hl
      · rw [get?_set_diff _ _ hij] at hj
        exact hlock j st hj hcrit
    · intro ht0
      exfalso
      rw [h0 ht0, hex0] at hex
      cases hex
    · intro ht1
      exfalso
      rw [h1 ht1, save_booster_handle] at hb
      cases hb
    · intro ht0
      exfalso
      rw [h0 ht0, hex0] at hex
      cases hex
    · intro j hj
      by_cases hij : i = j
      · subst hij
        rw [get?_set_self' _ _ _ (lt_length_of_get?_some hpc)] at hj
        cases hj
      · rw [get?_set_diff _ _ hij] at hj
        exact hmt j hj
  | checkLoadFail i hpc hl hb hex hid =>
    refine ⟨by simpa [List.length_set] using hlen, ?_, hle, h0, h1, ?_, ?_⟩
    · intro j st hj hcrit
      by_cases hij : i = j
      · subst hij; exact hl
      · rw [get?_set_diff _ _ hij] at hj
        exact hlock j st hj hcrit
    · intro ht0
      exfalso
      rw [h0 ht0, hex0] at hex
      cases hex
    · intro j hj
      by_cases hij : i = j
      · subst hij
        rw [get?_set_self' _ _ _ (lt_length_of_get?_some hpc)] at hj
        cases hj
      · rw [get?_set_diff _ _ hij] at hj
        exact hmt j hj
  | checkTrain i hpc hl hb hex =>
    refine ⟨by simpa [List.length_set] using hlen, ?_, hle, h0, h1, ?_, ?_⟩
    · intro j st hj hcrit
      by_cases hij : i = j
      · subst hij; exact hl
      · rw [get?_set_diff _ _ hij] at hj
        exact hlock j st hj hcrit
    · intro ht0 j st hj
      by_cases hij : i = j
      · subst hij
        rw [get?_set_self' _ _ _ (lt_length_of_get?_some hpc)] at hj
        cases hj
        exact ⟨by simp, by simp⟩
      · rw [get?_set_diff _ _ hij] at hj
        exact hnoexit ht0 j st hj
    · intro j hj
      by_cases ht : cs.trains = 0
      · exact ht
      · exfalso
        have ht1 : cs.trains = 1 := by omega
        rw [h1 ht1, save_booster_handle] at hb
        cases hb
  | trainStep i m' hpc hl hfit =>
    have hm : m' = m := Option.some.inj (hfit.symm.trans hdemo)
    have ht0 : cs.trains = 0 := hmt i hpc
    have hsvc : cs.svc = svc0 := h0 ht0
    refine ⟨by simpa [List.length_set] using hlen, ?_,
      by show cs.trains + 1 ≤ 1; omega,
      fun h => absurd (show cs.trains + 1 = 0 from h) (by omega), ?_, ?_, ?_⟩
    · intro j st hj hcrit
      by_cases hij : i = j
      · subst hij; exact hl
      · rw [get?_set_diff _ _ hij] at hj
        exact hlock j st hj hcrit
    · intro _
      show (_save_booster env cs.svc m').1 = _
      rw [hm, hsvc]
    · intro hcontra
      exact absurd (show cs.trains + 1 = 0 from hcontra) (by omega)
    · intro j hj
      by_cases hij : i = j
      · subst hij
        rw [get?_set_self' _ _ _ (lt_length_of_get?_some hpc)] at hj
        cases hj
      · rw [get?_set_diff _ _ hij] at hj
        have := hlock j TPC.mustTrain hj (Or.inr (Or.inl rfl))
        rw [hl] at this
        exact absurd (Option.some.inj this) hij
  | trainFail i hpc hl hfit =>
    rw [hdemo] at hfit
    cases hfit
  | release i hpc hl =>
    refine ⟨by simpa [List.length_set] using hlen, ?_, hle, h0, h1, ?_, ?_⟩
    · intro j st hj hcrit
      by_cases hij : i = j
      · subst hij
        rw [get?_set_self' _ _ _ (lt_length_of_get?_some hpc)] at hj
        cases hj
        rcases hcrit with h | h | h <;> cases h
      · rw [get?_set_diff _ _ hij] at hj
        have := hlock j st hj hcrit
        rw [hl] at this
        exact absurd (Option.some.inj this) hij
    · intro ht0
      exact absurd rfl (hnoexit ht0 i TPC.exiting hpc).1
    · intro j hj
      by_cases hij : i = j
      · subst hij
        rw [get?_set_self' _ _ _ (lt_length_of_get?_some hpc)] at hj
        cases hj
      · rw [get?_set_diff _ _ hij] at hj
        exact hmt j hj

theorem invC_reach (env : Env) (m : Nat) (svc0 : SState) (n : Nat)
    (hdemo : env.demoFit = some m)
    (hb0 : svc0.booster = none)
    (hex0 : pathExists svc0.fs svc0.modelPath = false)
    {cs0 cs : CState}
    (h : Relation.ReflTransGen (CStep env) cs0 cs)
    (hinit : InvC env m svc0 n cs0) : InvC env m svc0 n cs := by
  induction h with
  | refl => exact hinit
  | tail _ hstep ih => exact invC_step env m svc0 n hdemo hb0 hex0 ih hstep

/-! ## Claim C9 -/

/-- C9: when `n ≥ 1` callers run `load_or_train` concurrently on a fresh
service (no handle, no model file), in EVERY interleaving of the lock-guarded
check-and-act steps that runs all callers to completion, exactly one
synthetic training run occurs and the shared handle ends as the one demo
model — the whole check-and-act sequence holds the single lock, so callers
serialize and no duplicate-training race is possible. -/
theorem C9_lock_serializes_training (env : Env) (m : Nat) (mp : String)
    (fs0 : FS) (n : Nat) (cs : CState)
    (hdemo : env.demoFit = some m)
    (hex : pathExists fs0 mp = false)
    (hn : 1 ≤ n)
    (hreach : Relation.ReflTransGen (CStep env) (initC mp fs0 n) cs)
    (hdone : ∀ i st, cs.pcs.get? i = some st → st = TPC.done) :
    cs.trains = 1 ∧
    cs.svc = (_save_booster env { modelPath := mp, booster := none, fs := fs0 } m).1 ∧
    cs.svc.booster = some m := by
  have hinv := invC_reach env m { modelPath := mp, booster := none, fs := fs0 } n
    hdemo rfl hex hreach (invC_init env m mp fs0 n)
  obtain ⟨hlen, hlock, hle, h0, h1, hnoexit, hmt⟩ := hinv
  rcases hq : cs.pcs.get? 0 with _ | st
  · exfalso
    have hle0 : cs.pcs.length ≤ 0 := List.get?_eq_none.1 hq
    omega
  · have hd := hdone 0 st hq
    subst hd
    have htr : cs.trains ≠ 0 := fun h => (hnoexit h 0 _ hq).2 rfl
    have ht1 : cs.trains = 1 := by omega
    refine ⟨ht1, h1 ht1, ?_⟩
    rw [h1 ht1]
    rfl

/-- C9 witness: a concrete interleaving of two callers on a fresh service —
thread 0 acquires, checks, trains and releases; thread 1 then acquires,
sees the loaded handle, and releases.  One training run, shared handle
`some 3`. -/
theorem C9_witness :
    ({ svc := (_save_booster wEnv { modelPath := wMp, booster := none, fs := [] } 3).1,
       lock := none, pcs := [TPC.done, TPC.done], trains := 1 } : CState).trains = 1 ∧
    ({ svc := (_save_booster wEnv { modelPath := wMp, booster := none, fs := [] } 3).1,
       lock := none, pcs := [TPC.done, TPC.done], trains := 1 } : CState).svc.booster =
      some 3 := by
  have hreach : Relation.ReflTransGen (CStep wEnv) (initC wMp [] 2)
      { svc := (_save_booster wEnv { modelPath := wMp, booster := none, fs := [] } 3).1,
        lock := none, pcs := [TPC.done, TPC.done], trains := 1 } := by
    refine Relation.ReflTransGen.head (CStep.acquire _ 0 (by rfl) rfl) ?_
    refine Relation.ReflTransGen.head (CStep.checkTrain _ 0 (by rfl) rfl rfl (by rfl)) ?_
    refine Relation.ReflTransGen.head (CStep.trainStep _ 0 3 (by rfl) rfl rfl) ?_
    refine Relation.ReflTransGen.head (CStep.release _ 0 (by rfl) rfl) ?_
    refine Relation.ReflTransGen.head (CStep.acquire _ 1 (by rfl) rfl) ?_
    refine Relation.ReflTransGen.head (CStep.checkLoaded _ 1 (by rfl) rfl (by rfl)) ?_
    refine Relation.ReflTransGen.head (CStep.release _ 1 (by rfl) rfl) ?_
    exact Relation.ReflTransGen.refl
  have h := C9_lock_serializes_training wEnv 3 wMp [] 2 _ rfl (by rfl) (by omega)
    hreach ?_
  · exact ⟨h.1, h.2.2⟩
  · intro i st h
    match i, h with
    | 0, h => exact (Option.some.inj h).symm
    | 1, h => exact (Option.some.inj h).symm
    | (k + 2), h => exact Option.noConfusion h

end MLServer
